import Mathlib

/- Shallow embedding of pycytominer's `normalize` (pycytominer/normalize.py),
   together with models of the pandas and scikit-learn operations it calls
   and of the repository operations (RobustMAD, Spherize, infer_cp_features)
   that are described by the specification but whose sources are elsewhere
   in the repository. -/

set_option autoImplicit false

namespace PycytoNorm

/-- A table cell: a (rational-valued) number or a string. -/
inductive Value where
  | num (q : ℚ)
  | str (s : String)
deriving DecidableEq

/-- A pandas DataFrame: column names, a row index and the rows themselves,
each row listing its cells in column order. The index is an arbitrary list
of labels (here natural numbers), possibly duplicated, exactly as pandas
allows. -/
structure DataFrame where
  cols : List String
  index : List Nat
  rows : List (List Value)
deriving DecidableEq

/-- Position of the first occurrence of a column name. -/
def firstIdx (c : String) : List String → Option Nat
  | [] => none
  | c0 :: cs => if c0 = c then some 0 else (firstIdx c cs).map (· + 1)

/-- The cell of row `r` in column `c` (column positions given by `cols`). -/
def getCell (cols : List String) (r : List Value) (c : String) : Option Value :=
  (firstIdx c cols).bind (fun j => r.get? j)

/-- Row projection to the columns `cs` (pandas `df.loc[:, cs]` on one row).
Missing cells default to an empty string; the pipeline uses this only after
checking that every requested column exists. -/
def projRow (cols cs : List String) (r : List Value) : List Value :=
  cs.map (fun c => (getCell cols r c).getD (.str ""))

/-- The values of column `c` of a frame, one per row. -/
def DataFrame.colVals (T : DataFrame) (c : String) : List Value :=
  T.rows.map (fun r => (getCell T.cols r c).getD (.str ""))

/-- The faults the pipeline can raise. -/
inductive Fault where
  | unknownMethod
  | keyError
  | scalarSelection
  | queryError
  | typeError
  | invalidInput
  | shapeMismatch
deriving DecidableEq

/-- Comparison operators of the row-filter predicate language. -/
inductive Cmp where
  | eq | ne | lt | le | gt | ge
deriving DecidableEq

def cmpQ : Cmp → ℚ → ℚ → Bool
  | .eq, a, b => decide (a = b)
  | .ne, a, b => decide (a ≠ b)
  | .lt, a, b => decide (a < b)
  | .le, a, b => decide (a ≤ b)
  | .gt, a, b => decide (b < a)
  | .ge, a, b => decide (b ≤ a)

def cmpS : Cmp → String → String → Bool
  | .eq, a, b => decide (a = b)
  | .ne, a, b => decide (a ≠ b)
  | .lt, a, b => decide (a < b)
  | .le, a, b => !(decide (b < a))
  | .gt, a, b => decide (b < a)
  | .ge, a, b => !(decide (a < b))

/-- The row-filter predicate language: the typed form of the pandas
`DataFrame.query` strings used by `normalize` (boolean combinations of
column/constant comparisons; section 9 of the specification describes this
typed filter form and requires the row-inclusion semantics to match). -/
inductive QExpr where
  | numCmp (col : String) (op : Cmp) (v : ℚ)
  | strCmp (col : String) (op : Cmp) (v : String)
  | qand (a b : QExpr)
  | qor (a b : QExpr)
  | qnot (a : QExpr)
deriving DecidableEq

/-- Predicate evaluation on one row, in the context of ALL columns of the
queried frame (pandas evaluates `df.query` against every column of `df`,
not only the metadata ones). `none` models a raised evaluation error: a
missing column, or an ordered comparison between a number and a string.
Equality between a number and a string evaluates to False (inequality to
True), as in pandas. -/
def evalQ (cols : List String) (r : List Value) : QExpr → Option Bool
  | .numCmp c op v =>
    match getCell cols r c with
    | some (.num q) => some (cmpQ op q v)
    | some (.str _) =>
      match op with
      | .eq => some false
      | .ne => some true
      | _ => none
    | none => none
  | .strCmp c op v =>
    match getCell cols r c with
    | some (.str s) => some (cmpS op s v)
    | some (.num _) =>
      match op with
      | .eq => some false
      | .ne => some true
      | _ => none
    | none => none
  | .qand a b =>
    match evalQ cols r a, evalQ cols r b with
    | some x, some y => some (x && y)
    | _, _ => none
  | .qor a b =>
    match evalQ cols r a, evalQ cols r b with
    | some x, some y => some (x || y)
    | _, _ => none
  | .qnot a => (evalQ cols r a).map (fun x => !x)

/-- Column names referenced by a predicate. -/
def qCols : QExpr → List String
  | .numCmp c _ _ => [c]
  | .strCmp c _ _ => [c]
  | .qand a b => qCols a ++ qCols b
  | .qor a b => qCols a ++ qCols b
  | .qnot a => qCols a

/-- The `samples` argument: the sentinel "all" or a row predicate. -/
inductive Samples where
  | all
  | query (q : QExpr)
deriving DecidableEq

/-- Whether `profiles.query(q)` evaluates without fault on every row. -/
def queryOkB (T : DataFrame) (q : QExpr) : Bool :=
  T.rows.all (fun r => (evalQ T.cols r q).isSome)

/-- pandas `profiles.query(q)`: fails if the predicate fails on any row,
otherwise keeps the rows where it holds, preserving their order. -/
def queryRows (T : DataFrame) (q : QExpr) : Except Fault (List (List Value)) :=
  if queryOkB T q
  then .ok (T.rows.filter (fun r => decide (evalQ T.cols r q = some true)))
  else .error .queryError

/-- Row selection for fitting. The source checks `samples == "all"` first
(every row); otherwise the query is run against the FULL profiles frame. -/
def selectRows (T : DataFrame) : Samples → Except Fault (List (List Value))
  | .all => .ok T.rows
  | .query q => queryRows T q

/-- Whether the selection evaluates without fault. -/
def selOkB (T : DataFrame) : Samples → Bool
  | .all => true
  | .query q => queryOkB T q

/-- The selected rows, as a total function (meaningful when `selOkB`). -/
def selRowsList (T : DataFrame) : Samples → List (List Value)
  | .all => T.rows
  | .query q => T.rows.filter (fun r => decide (evalQ T.cols r q = some true))

/-- The `features` / `meta_features` argument: a string or an explicit list
of column names, as in the Python signature. -/
inductive ColSpec where
  | str (s : String)
  | list (cs : List String)
deriving DecidableEq

/-- The resolved column selection: a list of labels (a DataFrame selection)
or a scalar label (which pandas `loc` turns into a Series). -/
inductive Sel where
  | cols (cs : List String)
  | scalar (c : String)
deriving DecidableEq

/-- Modelled from the spec: the column-inference collaborator
`infer_cp_features` (pycytominer.cyto_utils, not under src/). Per section
4.1 of the specification, inference is deterministic, returns existing
column names, and feature and metadata lists are disjoint; metadata
columns follow the metadata naming convention. -/
def inferCp (T : DataFrame) (metadata : Bool) : List String :=
  if metadata then T.cols.filter (fun c => c.startsWith "Metadata_")
  else T.cols.filter (fun c =>
    c.startsWith "Cells_" || c.startsWith "Nuclei_" || c.startsWith "Cytoplasm_")

/-- Resolution of a column spec followed by `profiles.loc[:, spec]`:
the sentinel "infer" invokes the inference collaborator; an explicit list
must consist of existing labels (otherwise pandas loc raises KeyError);
any other string is a scalar label (KeyError if absent, otherwise a
Series, which is unusable downstream). -/
def resolveSel (T : DataFrame) (spec : ColSpec) (metadata : Bool) : Except Fault Sel :=
  match spec with
  | .str s =>
    if s = "infer" then .ok (.cols (inferCp T metadata))
    else if decide (s ∈ T.cols) then .ok (.scalar s)
    else .error .keyError
  | .list cs =>
    if cs.all (fun c => decide (c ∈ T.cols)) then .ok (.cols cs)
    else .error .keyError

/-- scikit-learn's numeric validation of one row: every cell must be a
number, otherwise fitting or transforming raises. -/
def rowNums : List Value → Except Fault (List ℚ)
  | [] => .ok []
  | .num q :: vs =>
    match rowNums vs with
    | .ok qs => .ok (q :: qs)
    | .error e => .error e
  | .str _ :: _ => .error .typeError

def rowsNums : List (List Value) → Except Fault (List (List ℚ))
  | [] => .ok []
  | r :: rs =>
    match rowNums r with
    | .ok q =>
      match rowsNums rs with
      | .ok qs => .ok (q :: qs)
      | .error e => .error e
    | .error e => .error e

def isNumCell : Option Value → Bool
  | some (.num _) => true
  | _ => false

def qOf : Option Value → ℚ
  | some (.num q) => q
  | _ => 0

/-- The numeric feature projection of one row (total; describes what the
pipeline computes when every feature cell is numeric). -/
def numProj (cols fcs : List String) (r : List Value) : List ℚ :=
  fcs.map (fun c => qOf (getCell cols r c))

/-- Every feature cell of every row of `T` is numeric. -/
def NumericOn (T : DataFrame) (fcs : List String) : Prop :=
  ∀ r ∈ T.rows, ∀ c ∈ fcs, isNumCell (getCell T.cols r c) = true

instance (T : DataFrame) (fcs : List String) : Decidable (NumericOn T fcs) :=
  inferInstanceAs (Decidable (∀ r ∈ T.rows, ∀ c ∈ fcs, isNumCell (getCell T.cols r c) = true))

def sumQ : List ℚ → ℚ
  | [] => 0
  | x :: xs => x + sumQ xs

def meanQ (l : List ℚ) : ℚ := sumQ l / (l.length : ℚ)

def colQ (X : List (List ℚ)) (j : Nat) : List ℚ := X.map (fun r => r.getD j 0)

/-- Population variance (ddof = 0), as used by sklearn's StandardScaler. -/
def varQ (l : List ℚ) : ℚ := meanQ (l.map (fun x => (x - meanQ l) ^ 2))

def insertQ (x : ℚ) : List ℚ → List ℚ
  | [] => [x]
  | y :: ys => if x ≤ y then x :: y :: ys else y :: insertQ x ys

def sortQ : List ℚ → List ℚ
  | [] => []
  | x :: xs => insertQ x (sortQ xs)

/-- numpy's linear-interpolation quantile (the numpy.percentile default),
for `q` in `[0,1]` on a nonempty list. -/
def quantileQ (l : List ℚ) (q : ℚ) : ℚ :=
  let s := sortQ l
  let h : ℚ := q * ((s.length : ℚ) - 1)
  let lo := (⌊h⌋).toNat
  let hi := (⌈h⌉).toNat
  s.getD lo 0 + (h - (lo : ℚ)) * (s.getD hi 0 - s.getD lo 0)

def medianQ (l : List ℚ) : ℚ := quantileQ l (1 / 2)

/-- Interquartile range (RobustScaler's default 25 to 75 quantile range). -/
def iqrQ (l : List ℚ) : ℚ := quantileQ l (3 / 4) - quantileQ l (1 / 4)

/-- The MAD normal-consistency constant 1.4826. -/
def madK : ℚ := 14826 / 10000

/-- The epsilon floor 1e-6. -/
def epsQ : ℚ := 1 / 1000000

/-- The two irrational numeric kernels of the pipeline, taken as
parameters: `sqrtQ` models the floating-point square root (StandardScaler's
standard deviation; Spherize's per-column standard deviations for the
correlation variant), and `whitenW` models Spherize's
eigendecomposition-based whitening-matrix constructor (the specification's
W = V * diag(1/sqrt(lambda + eps)) * transpose V of the regularized
matrix). Both produce irrational values in general, so they cannot be
written as exact rational functions; every theorem below is proved for
every choice of kernel, hence no statement depends on their values. -/
structure NumKernel where
  sqrtQ : ℚ → ℚ
  whitenW : List (List ℚ) → List (List ℚ)

/-- Fitted parameters (the specification's FittedParameters), per method:
per-column center and scale for the sklearn scalers, per-column medians
and floored scaled MADs for RobustMAD, and means plus whitening matrix for
Spherize. -/
inductive Params where
  | colwise (center scale : List ℚ)
  | madp (meds dens : List ℚ)
  | sph (means : List ℚ) (w : List (List ℚ))
deriving DecidableEq

/-- The feature-column count the parameters were fitted on. -/
def pWidth : Params → Nat
  | .colwise c _ => c.length
  | .madp meds _ => meds.length
  | .sph means _ => means.length

/-- StandardScaler's fitted scale: square root of the variance, with zero
scales replaced by 1 (sklearn's handling of zeros in scale). -/
def scaleStd (nk : NumKernel) (l : List ℚ) : ℚ :=
  let s := nk.sqrtQ (varQ l)
  if s = 0 then 1 else s

/-- RobustScaler's fitted scale: the IQR, with zeros replaced by 1. -/
def scaleIqr (l : List ℚ) : ℚ :=
  let s := iqrQ l
  if s = 0 then 1 else s

def madMeds (k : Nat) (X : List (List ℚ)) : List ℚ :=
  (List.range k).map (fun j => medianQ (colQ X j))

/-- Modelled from the spec: RobustMAD (pycytominer.operations, not under
src/). Its fit stores per-column medians and the scaled MAD
1.4826 * median |x - median|, and, per section 4.3 of the specification,
the transform denominator is the scaled MAD floored at the small fixed
epsilon, so that constant or near-constant columns cannot produce a zero
denominator. -/
def madDen (l : List ℚ) : ℚ :=
  max (madK * medianQ (l.map (fun x => |x - medianQ l|))) epsQ

def madDens (k : Nat) (X : List (List ℚ)) : List ℚ :=
  (List.range k).map (fun j => madDen (colQ X j))

def covQ (X : List (List ℚ)) (j l : Nat) : ℚ :=
  meanQ (X.map (fun r => (r.getD j 0 - meanQ (colQ X j)) * (r.getD l 0 - meanQ (colQ X l))))

def corrQ (nk : NumKernel) (X : List (List ℚ)) (j l : Nat) : ℚ :=
  covQ X j l / (nk.sqrtQ (varQ (colQ X j)) * nk.sqrtQ (varQ (colQ X l)))

/-- Modelled from the spec: Spherize (pycytominer.operations, not under
src/). Per section 4.3 of the specification, fit optionally centers the
subset (the center flag), builds the covariance matrix (method "ZCA") or
the correlation matrix (method "ZCA-cor") of the fitting subset,
regularizes it with the epsilon floor on the diagonal, and obtains the
whitening matrix through the eigendecomposition kernel `whitenW`; the
transform maps each row x, row-wise, to (x - mean) * W. -/
def sphFit (nk : NumKernel) (sc : Bool) (sm : String) (k : Nat) (X : List (List ℚ)) : Params :=
  let means :=
    if sc then (List.range k).map (fun j => meanQ (colQ X j))
    else (List.range k).map (fun _ => (0 : ℚ))
  let m := (List.range k).map (fun j => (List.range k).map (fun l =>
    (if sm = "ZCA" then covQ X j l else corrQ nk X j l) + (if j = l then epsQ else 0)))
  .sph means (nk.whitenW m)

/-- Fit dispatch: sklearn StandardScaler and RobustScaler, and the
spec-modelled RobustMAD and Spherize. An empty row subset is an
InvalidInput fault for every variant (sklearn's zero-sample check; spec
section 4.3 for the two modelled variants), as is a zero-width feature
frame for the sklearn scalers. -/
def fitScaler (nk : NumKernel) (m : String) (sc : Bool) (sm : String) (k : Nat)
    (X : List (List ℚ)) : Except Fault Params :=
  if X.isEmpty then .error .invalidInput
  else if m = "standardize" then
    if k = 0 then .error .invalidInput
    else .ok (.colwise ((List.range k).map (fun j => meanQ (colQ X j)))
                       ((List.range k).map (fun j => scaleStd nk (colQ X j))))
  else if m = "robustize" then
    if k = 0 then .error .invalidInput
    else .ok (.colwise ((List.range k).map (fun j => medianQ (colQ X j)))
                       ((List.range k).map (fun j => scaleIqr (colQ X j))))
  else if m = "mad_robustize" then
    .ok (.madp (madMeds k X) (madDens k X))
  else
    .ok (sphFit nk sc sm k X)

/-- Row-wise application of the Spherize transform: (x - mean) * W. -/
def sphApply (means : List ℚ) (w : List (List ℚ)) (r : List ℚ) : List ℚ :=
  let c := (r.zip means).map (fun p => p.1 - p.2)
  (List.range means.length).map (fun j => sumQ ((c.zip w).map (fun p => p.1 * (p.2.getD j 0))))

/-- The row-wise transform of fitted parameters. -/
def tRow : Params → List ℚ → List ℚ
  | .colwise c s, r => (r.zip (c.zip s)).map (fun p => (p.1 - p.2.1) / p.2.2)
  | .madp meds dens, r => (r.zip (meds.zip dens)).map (fun p => (p.1 - p.2.1) / p.2.2)
  | .sph means w, r => sphApply means w r

/-- The transform step: validates the width of every row against the
fitted width (a ShapeMismatch fault otherwise) and applies the row-wise
transform to every row it is given. -/
def transformAll (p : Params) (X : List (List ℚ)) : Except Fault (List (List ℚ)) :=
  if X.all (fun r => r.length == pWidth p) then .ok (X.map (tRow p))
  else .error .shapeMismatch

/-- The merged result frame: metadata columns (unchanged cells) followed
by the transformed feature columns. -/
structure OutFrame where
  metaCols : List String
  featCols : List String
  index : List Nat
  metaRows : List (List Value)
  featRows : List (List ℚ)
deriving DecidableEq

/-- pandas inner merge on the index (`left.merge(right, left_index=True,
right_index=True)`): every left row is paired with every right row that
carries the same index label, preserving left order. On duplicated labels
this is a many-to-many join. -/
def innerJoin {α β : Type} (L : List (Nat × α)) (R : List (Nat × β)) :
    List (Nat × α × β) :=
  match L with
  | [] => []
  | l :: ls =>
    ((R.filter (fun r => decide (r.1 = l.1))).map (fun r => (l.1, l.2, r.2)))
      ++ innerJoin ls R

/-- `meta_df.merge(feature_df, left_index=True, right_index=True)` where
both sides carry the index of the input frame. -/
def mergeFrames (T : DataFrame) (mcs fcs : List String) (y : List (List ℚ)) : OutFrame :=
  let piv := innerJoin (T.index.zip (T.rows.map (projRow T.cols mcs))) (T.index.zip y)
  { metaCols := mcs
    featCols := fcs
    index := piv.map (fun p => p.1)
    metaRows := piv.map (fun p => p.2.1)
    featRows := piv.map (fun p => p.2.2) }

/-- The values of metadata column `c` of a result frame. -/
def OutFrame.metaColVals (d : OutFrame) (c : String) : List Value :=
  d.metaRows.map (fun r => (getCell d.metaCols r c).getD (.str ""))

/-- Python's `str.lower()` (character-wise lowercasing). -/
def lowerStr (s : String) : String := String.mk (s.data.map Char.toLower)

def avail_methods : List String := ["standardize", "robustize", "mad_robustize", "spherize"]

/-- Lines 59 to 101 of pycytominer/normalize.py: lower-case the method and
assert it is available; resolve and select the feature columns (line 81,
the KeyError site for features) and the metadata columns (line 85, the
KeyError site for metadata); select the fitting rows (`samples == "all"`
keeps every row, anything else runs `profiles.query` on the full frame);
fit the scaler on the feature columns of the selected rows only; transform
the feature columns of EVERY row; merge the unchanged metadata columns
with the transformed feature columns on the row index. -/
def normalizeCore (nk : NumKernel) (T : DataFrame) (features meta_features : ColSpec)
    (samples : Samples) (method : String) (sc : Bool) (sm : String) :
    Except Fault OutFrame :=
  let m := lowerStr method
  if m ∈ avail_methods then
    match resolveSel T features false with
    | .error e => .error e
    | .ok fsel =>
      match resolveSel T meta_features true with
      | .error e => .error e
      | .ok msel =>
        match selectRows T samples with
        | .error e => .error e
        | .ok subRows =>
          match fsel with
          | .scalar _ => .error .scalarSelection
          | .cols fcs =>
            match rowsNums (subRows.map (projRow T.cols fcs)) with
            | .error e => .error e
            | .ok subX =>
              match fitScaler nk m sc sm fcs.length subX with
              | .error e => .error e
              | .ok p =>
                match rowsNums (T.rows.map (projRow T.cols fcs)) with
                | .error e => .error e
                | .ok x =>
                  match transformAll p x with
                  | .error e => .error e
                  | .ok y =>
                    match msel with
                    | .scalar _ => .error .scalarSelection
                    | .cols mcs => .ok (mergeFrames T mcs fcs y)
  else .error .unknownMethod

/-- pycytominer's `normalize` (normalize.py, lines 16 to 111). The
external collaborators load_profiles (the identity on an in-memory frame)
and output (persistence, out of scope) surround `normalizeCore`; when an
output destination other than the sentinel "none" is given, the function
writes the frame out and implicitly returns None (modelled `.ok none`),
otherwise it returns the normalized frame. -/
def normalize (nk : NumKernel) (profiles : DataFrame) (features meta_features : ColSpec)
    (samples : Samples) (method : String) (output_file : String)
    (sc : Bool) (sm : String) : Except Fault (Option OutFrame) :=
  (normalizeCore nk profiles features meta_features samples method sc sm).map
    (fun df => if output_file = "none" then some df else none)

/-- The feature matrix the scaler is fitted on: the feature columns of the
selected rows only. -/
def fitInput (T : DataFrame) (fcs : List String) (samples : Samples) : List (List ℚ) :=
  (selRowsList T samples).map (numProj T.cols fcs)

/-- Row count of a successful, returned result. -/
def rowCountOf : Except Fault (Option OutFrame) → Option Nat
  | .ok (some df) => some df.index.length
  | _ => none

/-- A metadata column of a successful, returned result. -/
def metaColOf : Except Fault (Option OutFrame) → String → Option (List Value)
  | .ok (some df), c => some (df.metaColVals c)
  | _, _ => none

def isOkSel : Except Fault Sel → Bool
  | .ok _ => true
  | .error _ => false

/-- A concrete kernel used to instantiate witnesses (no theorem depends on
the kernel's values). -/
def kDflt : NumKernel :=
  { sqrtQ := fun q => q
    whitenW := fun m => m }

/-- A small concrete profile table in the shape of the repository's test
data: one metadata column, three feature columns, four rows of which the
first two are the "control" rows. -/
def Tw : DataFrame :=
  { cols := ["Metadata_treatment", "x", "y", "z"]
    index := [0, 1, 2, 3]
    rows := [[.str "control", .num 1, .num 3, .num 5],
             [.str "control", .num 2, .num 1, .num 5],
             [.str "drug", .num 8, .num 7, .num 9],
             [.str "drug", .num 2, .num 4, .num 7]] }

/-- A table whose index carries a duplicated label. -/
def Tdup : DataFrame :=
  { cols := ["x"], index := [5, 5], rows := [[.num 1], [.num 2]] }

/-- A table with a metadata column and a duplicated index label. -/
def Tdup3 : DataFrame :=
  { cols := ["m", "x"], index := [7, 7],
    rows := [[.str "a", .num 1], [.str "b", .num 2]] }

/- ## Supporting lemmas -/

theorem firstIdx_mem {c : String} {l : List String} (h : c ∈ l) :
    ∃ j, firstIdx c l = some j ∧ l.get? j = some c := by
  induction l with
  | nil => cases h
  | cons c0 cs ih =>
    by_cases hc : c0 = c
    · exact ⟨0, by simp [firstIdx, hc], by simp [hc]⟩
    · have hmem : c ∈ cs := by
        rcases List.mem_cons.mp h with h1 | h2
        · exact absurd h1.symm hc
        · exact h2
      obtain ⟨j, hj, hg⟩ := ih hmem
      exact ⟨j + 1, by simp [firstIdx, hc, hj], by simpa using hg⟩

theorem getCell_map_self {c : String} {l : List String} (g : String → Value) (h : c ∈ l) :
    getCell l (l.map g) c = some (g c) := by
  obtain ⟨j, hj, hg⟩ := firstIdx_mem h
  rw [getCell, hj, Option.some_bind, List.get?_map, hg, Option.map_some']

theorem selectRows_ok {T : DataFrame} {samples : Samples} (h : selOkB T samples = true) :
    selectRows T samples = .ok (selRowsList T samples) := by
  cases samples with
  | all => rfl
  | query q =>
    have h' : queryOkB T q = true := h
    rw [selectRows, queryRows, if_pos h']
    rfl

theorem selRowsList_mem {T : DataFrame} {samples : Samples} {r : List Value}
    (h : r ∈ selRowsList T samples) : r ∈ T.rows := by
  cases samples with
  | all => exact h
  | query q => exact (List.mem_filter.mp h).1

theorem rowNums_ok {cols fcs : List String} {r : List Value}
    (h : ∀ c ∈ fcs, isNumCell (getCell cols r c) = true) :
    rowNums (projRow cols fcs r) = .ok (numProj cols fcs r) := by
  induction fcs with
  | nil => rfl
  | cons c cs ih =>
    have hc := h c (List.mem_cons_self c cs)
    have hcs : ∀ c0 ∈ cs, isNumCell (getCell cols r c0) = true :=
      fun c0 hc0 => h c0 (List.mem_cons_of_mem c hc0)
    cases hcell : getCell cols r c with
    | none => rw [hcell] at hc; simp [isNumCell] at hc
    | some v =>
      cases v with
      | str s => rw [hcell] at hc; simp [isNumCell] at hc
      | num q =>
        have hproj : projRow cols (c :: cs) r = .num q :: projRow cols cs r := by
          simp [projRow, hcell]
        have hnum : numProj cols (c :: cs) r = q :: numProj cols cs r := by
          simp [numProj, qOf, hcell]
        rw [hproj, hnum, rowNums, ih hcs]

theorem rowsNums_ok {cols fcs : List String} {rs : List (List Value)}
    (h : ∀ r ∈ rs, ∀ c ∈ fcs, isNumCell (getCell cols r c) = true) :
    rowsNums (rs.map (projRow cols fcs)) = .ok (rs.map (numProj cols fcs)) := by
  induction rs with
  | nil => rfl
  | cons r rs ih =>
    rw [List.map_cons, List.map_cons, rowsNums,
      rowNums_ok (h r (List.mem_cons_self r rs)),
      ih (fun r0 h0 => h r0 (List.mem_cons_of_mem r h0))]

theorem resolveSel_list {T : DataFrame} {cs : List String} {b : Bool}
    (h : ∀ c ∈ cs, c ∈ T.cols) :
    resolveSel T (.list cs) b = .ok (.cols cs) := by
  rw [resolveSel, if_pos]
  exact List.all_eq_true.mpr (fun c hc => decide_eq_true (h c hc))

theorem pWidth_sphFit (nk : NumKernel) (sc : Bool) (sm : String) (k : Nat)
    (X : List (List ℚ)) : pWidth (sphFit nk sc sm k X) = k := by
  cases sc <;> simp [sphFit, pWidth]

theorem fitScaler_ok (nk : NumKernel) (sc : Bool) (sm : String) {m : String} {k : Nat}
    {X : List (List ℚ)} (hm : m ∈ avail_methods) (hX : X ≠ []) (hk : k ≠ 0) :
    ∃ p, fitScaler nk m sc sm k X = .ok p ∧ pWidth p = k := by
  have hXe : X.isEmpty = false := by
    cases X with
    | nil => exact absurd rfl hX
    | cons a as => rfl
  simp only [avail_methods, List.mem_cons, List.mem_singleton, List.not_mem_nil,
    or_false] at hm
  rcases hm with rfl | rfl | rfl | rfl
  · exact ⟨.colwise ((List.range k).map (fun j => meanQ (colQ X j)))
        ((List.range k).map (fun j => scaleStd nk (colQ X j))),
      by simp [fitScaler, hXe, hk], by simp [pWidth]⟩
  · exact ⟨.colwise ((List.range k).map (fun j => medianQ (colQ X j)))
        ((List.range k).map (fun j => scaleIqr (colQ X j))),
      by simp [fitScaler, hXe, hk], by simp [pWidth]⟩
  · exact ⟨.madp (madMeds k X) (madDens k X),
      by simp [fitScaler, hXe], by simp [pWidth, madMeds]⟩
  · exact ⟨sphFit nk sc sm k X,
      by simp [fitScaler, hXe], pWidth_sphFit nk sc sm k X⟩

theorem transformAll_ok {p : Params} {X : List (List ℚ)}
    (h : ∀ r ∈ X, r.length = pWidth p) :
    transformAll p X = .ok (X.map (tRow p)) := by
  rw [transformAll, if_pos]
  exact List.all_eq_true.mpr (fun r hr => by simp [h r hr])

theorem innerJoin_nil {α β : Type} (R : List (Nat × β)) :
    innerJoin ([] : List (Nat × α)) R = [] := rfl

theorem innerJoin_cons {α β : Type} (l : Nat × α) (ls : List (Nat × α))
    (R : List (Nat × β)) :
    innerJoin (l :: ls) R =
      ((R.filter (fun r => decide (r.1 = l.1))).map (fun r => (l.1, l.2, r.2)))
        ++ innerJoin ls R := rfl

theorem innerJoin_skip {α β : Type} {L : List (Nat × α)} {R : List (Nat × β)}
    {i : Nat} {b : β} (h : ∀ p ∈ L, p.1 ≠ i) :
    innerJoin L ((i, b) :: R) = innerJoin L R := by
  induction L with
  | nil => rfl
  | cons l ls ih =>
    have hne : ¬(((i, b) : Nat × β).1 = l.1) :=
      fun hh => (h l (List.mem_cons_self l ls)) hh.symm
    have hls : ∀ p ∈ ls, p.1 ≠ i := fun p hp => h p (List.mem_cons_of_mem l hp)
    rw [innerJoin_cons, innerJoin_cons, List.filter_cons, decide_eq_false hne,
      ih hls]
    simp

theorem innerJoin_zip_eq {α β : Type} (idx : List Nat) (A : List α) (B : List β)
    (hnd : idx.Nodup) (hA : A.length = idx.length) (hB : B.length = idx.length) :
    innerJoin (idx.zip A) (idx.zip B) = idx.zip (A.zip B) := by
  induction idx generalizing A B with
  | nil => simp [innerJoin]
  | cons i is ih =>
    cases A with
    | nil => simp at hA
    | cons a as =>
      cases B with
      | nil => simp at hB
      | cons b bs =>
        have hnd1 : i ∉ is := (List.nodup_cons.mp hnd).1
        have hnd2 : is.Nodup := (List.nodup_cons.mp hnd).2
        have hA1 : as.length = is.length := by simpa using hA
        have hB1 : bs.length = is.length := by simpa using hB
        have htail : (is.zip bs).filter (fun r => decide (r.1 = i)) = [] := by
          rw [List.filter_eq_nil]
          intro p hp
          obtain ⟨x, yv⟩ := p
          have hx : x ∈ is := (List.of_mem_zip hp).1
          simp only [decide_eq_true_eq]
          exact fun hxi => hnd1 (hxi ▸ hx)
        have hskip : innerJoin (is.zip as) ((i, b) :: is.zip bs)
            = innerJoin (is.zip as) (is.zip bs) := by
          apply innerJoin_skip
          intro p hp
          obtain ⟨x, yv⟩ := p
          have hx : x ∈ is := (List.of_mem_zip hp).1
          exact fun hxi => hnd1 (hxi ▸ hx)
        have hhead : decide (((i, b) : Nat × β).1 = ((i, a) : Nat × α).1) = true := by
          simp
        rw [List.zip_cons_cons, List.zip_cons_cons, List.zip_cons_cons,
          innerJoin_cons, List.filter_cons, hhead, htail, hskip, ih as bs hnd2 hA1 hB1]
        simp

theorem mergeFrames_aligned {T : DataFrame} (mcs fcs : List String) {y : List (List ℚ)}
    (hlen : T.index.length = T.rows.length) (hnd : T.index.Nodup)
    (hy : y.length = T.rows.length) :
    mergeFrames T mcs fcs y =
      { metaCols := mcs, featCols := fcs, index := T.index,
        metaRows := T.rows.map (projRow T.cols mcs), featRows := y } := by
  have hA : (T.rows.map (projRow T.cols mcs)).length = T.index.length := by
    simp [hlen]
  have hB : y.length = T.index.length := by rw [hy, hlen]
  have hj := innerJoin_zip_eq T.index (T.rows.map (projRow T.cols mcs)) y hnd hA hB
  have hzl : ((T.rows.map (projRow T.cols mcs)).zip y).length = T.index.length := by
    rw [List.length_zip, hA, hB, Nat.min_self]
  simp only [mergeFrames, hj, OutFrame.mk.injEq]
  refine ⟨trivial, trivial, ?_, ?_, ?_⟩
  · exact List.map_fst_zip T.index _ (le_of_eq hzl.symm)
  · have h1 : (T.index.zip ((T.rows.map (projRow T.cols mcs)).zip y)).map Prod.snd
        = (T.rows.map (projRow T.cols mcs)).zip y :=
      List.map_snd_zip _ _ (le_of_eq hzl)
    calc (T.index.zip ((T.rows.map (projRow T.cols mcs)).zip y)).map (fun p => p.2.1)
        = ((T.index.zip ((T.rows.map (projRow T.cols mcs)).zip y)).map Prod.snd).map Prod.fst :=
          (List.map_map _ _ _).symm
      _ = ((T.rows.map (projRow T.cols mcs)).zip y).map Prod.fst := by rw [h1]
      _ = T.rows.map (projRow T.cols mcs) :=
          List.map_fst_zip _ _ (le_of_eq (hA.trans hB.symm))
  · have h1 : (T.index.zip ((T.rows.map (projRow T.cols mcs)).zip y)).map Prod.snd
        = (T.rows.map (projRow T.cols mcs)).zip y :=
      List.map_snd_zip _ _ (le_of_eq hzl)
    calc (T.index.zip ((T.rows.map (projRow T.cols mcs)).zip y)).map (fun p => p.2.2)
        = ((T.index.zip ((T.rows.map (projRow T.cols mcs)).zip y)).map Prod.snd).map Prod.snd :=
          (List.map_map _ _ _).symm
      _ = ((T.rows.map (projRow T.cols mcs)).zip y).map Prod.snd := by rw [h1]
      _ = y := List.map_snd_zip _ _ (le_of_eq (hB.trans hA.symm))

/-- The one successful-run lemma every positive claim below instantiates:
under the stated decidable side conditions `normalizeCore` succeeds, the
scaler is fitted on the feature columns of the selected rows only, and the
result consists of the unchanged metadata rows next to the transform of
EVERY row's feature columns, in the original row order and under the
original index. -/
theorem run_ok (nk : NumKernel) (T : DataFrame) (fcs mcs : List String)
    (samples : Samples) (method : String) (sc : Bool) (sm : String)
    (hm : lowerStr method ∈ avail_methods)
    (hlen : T.index.length = T.rows.length) (hnd : T.index.Nodup)
    (hf : ∀ c ∈ fcs, c ∈ T.cols) (hf0 : fcs ≠ [])
    (hmc : ∀ c ∈ mcs, c ∈ T.cols)
    (hq : selOkB T samples = true)
    (hsub : selRowsList T samples ≠ [])
    (hnum : NumericOn T fcs) :
    ∃ p, fitScaler nk (lowerStr method) sc sm fcs.length (fitInput T fcs samples) = .ok p
      ∧ pWidth p = fcs.length
      ∧ normalizeCore nk T (.list fcs) (.list mcs) samples method sc sm =
          .ok { metaCols := mcs, featCols := fcs, index := T.index,
                metaRows := T.rows.map (projRow T.cols mcs),
                featRows := (T.rows.map (numProj T.cols fcs)).map (tRow p) } := by
  have hsubX : fitInput T fcs samples ≠ [] := by
    intro hcon
    exact hsub (List.map_eq_nil.mp hcon)
  have hk0 : fcs.length ≠ 0 := fun hcon => hf0 (List.length_eq_zero.mp hcon)
  obtain ⟨p, hp, hw⟩ := fitScaler_ok nk sc sm hm hsubX hk0
  refine ⟨p, hp, hw, ?_⟩
  simp only [fitInput] at hp
  have h1 : resolveSel T (.list fcs) false = .ok (.cols fcs) := resolveSel_list hf
  have h2 : resolveSel T (.list mcs) true = .ok (.cols mcs) := resolveSel_list hmc
  have h3 : selectRows T samples = .ok (selRowsList T samples) := selectRows_ok hq
  have hsubnum : ∀ r ∈ selRowsList T samples, ∀ c ∈ fcs,
      isNumCell (getCell T.cols r c) = true :=
    fun r hr => hnum r (selRowsList_mem hr)
  have h4 : rowsNums ((selRowsList T samples).map (projRow T.cols fcs))
      = .ok ((selRowsList T samples).map (numProj T.cols fcs)) := rowsNums_ok hsubnum
  have h5 : rowsNums (T.rows.map (projRow T.cols fcs))
      = .ok (T.rows.map (numProj T.cols fcs)) := rowsNums_ok hnum
  have h6 : transformAll p (T.rows.map (numProj T.cols fcs))
      = .ok ((T.rows.map (numProj T.cols fcs)).map (tRow p)) := by
    apply transformAll_ok
    intro r hr
    obtain ⟨r0, hr0, rfl⟩ := List.mem_map.mp hr
    simp [numProj, hw]
  have hylen : ((T.rows.map (numProj T.cols fcs)).map (tRow p)).length = T.rows.length := by
    simp
  have h7 := mergeFrames_aligned mcs fcs hlen hnd hylen
  simp only [normalizeCore, hm, if_true, h1, h2, h3, h4, hp, h5, h6, h7]

theorem insertQ_length (x : ℚ) (l : List ℚ) : (insertQ x l).length = l.length + 1 := by
  induction l with
  | nil => rfl
  | cons y ys ih =>
    simp only [insertQ]
    by_cases h : x ≤ y
    · rw [if_pos h]
      simp
    · rw [if_neg h, List.length_cons, ih, List.length_cons]

theorem insertQ_mem {a : ℚ} (x : ℚ) (l : List ℚ) :
    a ∈ insertQ x l ↔ a = x ∨ a ∈ l := by
  induction l with
  | nil => simp [insertQ]
  | cons y ys ih =>
    by_cases h : x ≤ y
    · simp [insertQ, h]
    · simp only [insertQ, if_neg h, List.mem_cons, ih]
      tauto

theorem sortQ_length (l : List ℚ) : (sortQ l).length = l.length := by
  induction l with
  | nil => rfl
  | cons x xs ih =>
    simp only [sortQ]
    rw [insertQ_length, ih, List.length_cons]

theorem sortQ_mem {a : ℚ} (l : List ℚ) : a ∈ sortQ l ↔ a ∈ l := by
  induction l with
  | nil => simp [sortQ]
  | cons x xs ih =>
    simp only [sortQ, insertQ_mem, ih, List.mem_cons]

theorem getD_all_eq {v : ℚ} {l : List ℚ} (h : ∀ x ∈ l, x = v) :
    ∀ {k : Nat}, k < l.length → l.getD k 0 = v := by
  induction l with
  | nil =>
    intro k hk
    simp at hk
  | cons a as ih =>
    intro k hk
    cases k with
    | zero =>
      rw [List.getD_cons_zero]
      exact h a (List.mem_cons_self a as)
    | succ k0 =>
      rw [List.getD_cons_succ]
      exact ih (fun x hx => h x (List.mem_cons_of_mem a hx)) (by simpa using hk)

theorem quantileQ_const {l : List ℚ} {v : ℚ} (h0 : l ≠ []) (h : ∀ x ∈ l, x = v)
    {q : ℚ} (hq1 : q ≤ 1) : quantileQ l q = v := by
  have hs : ∀ x ∈ sortQ l, x = v := fun x hx => h x ((sortQ_mem l).mp hx)
  have hpos : 0 < (sortQ l).length := by
    rw [sortQ_length]
    exact List.length_pos.mpr h0
  have h1 : (1 : ℚ) ≤ ((sortQ l).length : ℚ) := by exact_mod_cast hpos
  have hh0 : (0 : ℚ) ≤ ((sortQ l).length : ℚ) - 1 := by linarith
  have hhalf : q * (((sortQ l).length : ℚ) - 1) ≤ ((sortQ l).length : ℚ) - 1 :=
    mul_le_of_le_one_left hh0 hq1
  have hint : (((sortQ l).length : ℚ) - 1) = ((((sortQ l).length : ℤ) - 1 : ℤ) : ℚ) := by
    push_cast
    ring
  have hfl : ⌊q * (((sortQ l).length : ℚ) - 1)⌋ ≤ ((sortQ l).length : ℤ) - 1 := by
    calc ⌊q * (((sortQ l).length : ℚ) - 1)⌋ ≤ ⌊(((sortQ l).length : ℚ) - 1)⌋ :=
          Int.floor_le_floor hhalf
      _ = ((sortQ l).length : ℤ) - 1 := by rw [hint, Int.floor_intCast]
  have hcl : ⌈q * (((sortQ l).length : ℚ) - 1)⌉ ≤ ((sortQ l).length : ℤ) - 1 := by
    calc ⌈q * (((sortQ l).length : ℚ) - 1)⌉ ≤ ⌈(((sortQ l).length : ℚ) - 1)⌉ :=
          Int.ceil_le_ceil hhalf
      _ = ((sortQ l).length : ℤ) - 1 := by rw [hint, Int.ceil_intCast]
  have hlo : (⌊q * (((sortQ l).length : ℚ) - 1)⌋).toNat < (sortQ l).length := by omega
  have hhi : (⌈q * (((sortQ l).length : ℚ) - 1)⌉).toNat < (sortQ l).length := by omega
  simp only [quantileQ]
  rw [getD_all_eq hs hlo, getD_all_eq hs hhi]
  ring

theorem medianQ_const {l : List ℚ} {v : ℚ} (h0 : l ≠ []) (h : ∀ x ∈ l, x = v) :
    medianQ l = v :=
  quantileQ_const h0 h (by norm_num)

theorem madDen_const {l : List ℚ} {v : ℚ} (h0 : l ≠ []) (h : ∀ x ∈ l, x = v) :
    madDen l = epsQ := by
  have hm : medianQ l = v := medianQ_const h0 h
  have habs : ∀ x ∈ l.map (fun x => |x - medianQ l|), x = 0 := by
    intro x hx
    obtain ⟨x0, hx0, rfl⟩ := List.mem_map.mp hx
    rw [h x0 hx0, hm, sub_self, abs_zero]
  have h0m : l.map (fun x => |x - medianQ l|) ≠ [] := by
    simpa using h0
  rw [madDen, medianQ_const h0m habs, mul_zero]
  exact max_eq_right (by norm_num [epsQ])

theorem madDen_pos (l : List ℚ) : 0 < madDen l := by
  have heps : (0 : ℚ) < epsQ := by norm_num [epsQ]
  exact lt_of_lt_of_le heps (le_max_right _ _)

theorem fitScaler_mad (nk : NumKernel) (sc : Bool) (sm : String) (k : Nat)
    {X : List (List ℚ)} (hX : X ≠ []) :
    fitScaler nk "mad_robustize" sc sm k X = .ok (.madp (madMeds k X) (madDens k X)) := by
  have hXe : X.isEmpty = false := by
    cases X with
    | nil => exact absurd rfl hX
    | cons a as => rfl
  simp [fitScaler, hXe]

theorem madDens_getD {k j : Nat} (X : List (List ℚ)) (hj : j < k) :
    (madDens k X).getD j 0 = madDen (colQ X j) := by
  simp only [madDens]
  rw [List.getD_eq_get?, List.get?_map, List.get?_range hj]
  rfl

theorem colQ_map_getD (cols fcs : List String) (rs : List (List Value)) (j : Nat) :
    colQ (rs.map (numProj cols fcs)) j
      = rs.map (fun r => (numProj cols fcs r).getD j 0) := by
  simp only [colQ, List.map_map]
  rfl

theorem metaColVals_of_proj (T : DataFrame) (mcs fcs : List String) (idx : List Nat)
    (y : List (List ℚ)) {c : String} (hc : c ∈ mcs) :
    OutFrame.metaColVals
      { metaCols := mcs, featCols := fcs, index := idx,
        metaRows := T.rows.map (projRow T.cols mcs), featRows := y } c
      = T.colVals c := by
  have hfun : ∀ r : List Value,
      (getCell mcs (projRow T.cols mcs r) c).getD (.str "")
        = (getCell T.cols r c).getD (.str "") := by
    intro r
    simp only [projRow]
    rw [getCell_map_self _ hc, Option.getD_some]
  simp only [OutFrame.metaColVals, DataFrame.colVals, List.map_map]
  apply List.map_congr
  intro r hr
  exact hfun r

theorem normalize_of_core_ok {nk : NumKernel} {T : DataFrame} {f m : ColSpec}
    {s : Samples} {method : String} {sc : Bool} {sm : String} {df : OutFrame}
    (h : normalizeCore nk T f m s method sc sm = .ok df) :
    normalize nk T f m s method "none" sc sm = .ok (some df) := by
  simp only [normalize]
  rw [h]
  rfl

/- ## Claim theorems -/

/-- Claim C1: for every table, explicit feature list and selection spec
(and any available method, metadata list and numeric kernel, under the
side conditions that make the run well formed), `normalize` fits the
scaler on the feature values of the SELECTED rows only — the fit input is
exactly `fitInput`, the feature projection of `selRowsList` — and then
applies the fitted transform to the feature values of EVERY row of the
table: the returned feature rows are the row-wise transform of the full
table's feature matrix, not just of the selected subset. -/
theorem normalize_fits_on_subset_transforms_all
    (nk : NumKernel) (T : DataFrame) (fcs mcs : List String) (samples : Samples)
    (method : String) (sc : Bool) (sm : String)
    (hm : lowerStr method ∈ avail_methods)
    (hlen : T.index.length = T.rows.length) (hnd : T.index.Nodup)
    (hf : ∀ c ∈ fcs, c ∈ T.cols) (hf0 : fcs ≠ [])
    (hmc : ∀ c ∈ mcs, c ∈ T.cols)
    (hq : selOkB T samples = true)
    (hsub : selRowsList T samples ≠ [])
    (hnum : NumericOn T fcs) :
    ∃ p,
      fitScaler nk (lowerStr method) sc sm fcs.length (fitInput T fcs samples) = .ok p ∧
      normalize nk T (.list fcs) (.list mcs) samples method "none" sc sm =
        .ok (some { metaCols := mcs, featCols := fcs, index := T.index,
                    metaRows := T.rows.map (projRow T.cols mcs),
                    featRows := (T.rows.map (numProj T.cols fcs)).map (tRow p) }) := by
  obtain ⟨p, hp, hw, hcore⟩ :=
    run_ok nk T fcs mcs samples method sc sm hm hlen hnd hf hf0 hmc hq hsub hnum
  exact ⟨p, hp, normalize_of_core_ok hcore⟩

/-- Claim C2 (amended): provided the input table's row identifiers are
pairwise distinct, a successful `normalize` run returns a table with
exactly the input's row identifiers, in the input's order, and one feature
row per input row. (The original claim, quantified over EVERY input table,
fails on tables with duplicated index labels; see the counterexample.) -/
theorem normalize_preserves_rows_of_nodup_index
    (nk : NumKernel) (T : DataFrame) (fcs mcs : List String) (samples : Samples)
    (method : String) (sc : Bool) (sm : String)
    (hm : lowerStr method ∈ avail_methods)
    (hlen : T.index.length = T.rows.length) (hnd : T.index.Nodup)
    (hf : ∀ c ∈ fcs, c ∈ T.cols) (hf0 : fcs ≠ [])
    (hmc : ∀ c ∈ mcs, c ∈ T.cols)
    (hq : selOkB T samples = true)
    (hsub : selRowsList T samples ≠ [])
    (hnum : NumericOn T fcs) :
    ∃ df,
      normalize nk T (.list fcs) (.list mcs) samples method "none" sc sm = .ok (some df) ∧
      df.index = T.index ∧ df.featRows.length = T.rows.length := by
  obtain ⟨p, hp, hw, hcore⟩ :=
    run_ok nk T fcs mcs samples method sc sm hm hlen hnd hf hf0 hmc hq hsub hnum
  exact ⟨_, normalize_of_core_ok hcore, rfl, by simp⟩

/-- Claim C3 (amended): provided the input table's row identifiers are
pairwise distinct, every metadata column of a successful `normalize`
output is identical — same values, same order — to the corresponding
column of the input table; metadata is never recomputed. (The original
claim, quantified over EVERY input table, fails on tables with duplicated
index labels, which duplicate metadata rows in the merge; see the
counterexample.) -/
theorem normalize_meta_columns_unchanged
    (nk : NumKernel) (T : DataFrame) (fcs mcs : List String) (samples : Samples)
    (method : String) (sc : Bool) (sm : String)
    (hm : lowerStr method ∈ avail_methods)
    (hlen : T.index.length = T.rows.length) (hnd : T.index.Nodup)
    (hf : ∀ c ∈ fcs, c ∈ T.cols) (hf0 : fcs ≠ [])
    (hmc : ∀ c ∈ mcs, c ∈ T.cols)
    (hq : selOkB T samples = true)
    (hsub : selRowsList T samples ≠ [])
    (hnum : NumericOn T fcs) :
    ∃ df,
      normalize nk T (.list fcs) (.list mcs) samples method "none" sc sm = .ok (some df) ∧
      ∀ c ∈ mcs, df.metaColVals c = T.colVals c := by
  obtain ⟨p, hp, hw, hcore⟩ :=
    run_ok nk T fcs mcs samples method sc sm hm hlen hnd hf hf0 hmc hq hsub hnum
  refine ⟨_, normalize_of_core_ok hcore, ?_⟩
  intro c hc
  exact metaColVals_of_proj T mcs fcs T.index
    ((T.rows.map (numProj T.cols fcs)).map (tRow p)) hc

/-- Claim C4: a predicate that evaluates to true on every row selects
exactly the rows that `samples = "all"` selects, so the whole `normalize`
call — fitted parameters included — is identical to the `samples = "all"`
call, for every method, column spec and output option. -/
theorem normalize_all_eq_always_true_query
    (nk : NumKernel) (T : DataFrame) (f m : ColSpec) (q : QExpr)
    (method o : String) (sc : Bool) (sm : String)
    (h : ∀ r ∈ T.rows, evalQ T.cols r q = some true) :
    selectRows T (.query q) = selectRows T .all
    ∧ normalize nk T f m (.query q) method o sc sm
        = normalize nk T f m .all method o sc sm := by
  have hok : queryOkB T q = true := by
    rw [queryOkB, List.all_eq_true]
    intro r hr
    rw [h r hr]
    rfl
  have hq1 : queryRows T q
      = .ok (T.rows.filter (fun r => decide (evalQ T.cols r q = some true))) := by
    rw [queryRows, if_pos hok]
  have hq2 : T.rows.filter (fun r => decide (evalQ T.cols r q = some true)) = T.rows :=
    List.filter_eq_self.mpr (fun r hr => decide_eq_true (h r hr))
  have hsel : selectRows T (.query q) = selectRows T .all := by
    show queryRows T q = .ok T.rows
    rw [hq1, hq2]
  exact ⟨hsel, by simp only [normalize, normalizeCore, hsel]⟩

/-- Claim C5: `normalize` recognizes the method case-insensitively (two
method strings with the same lowercasing behave identically), and a method
whose lowercasing is not one of the four available names makes the whole
call fail with the UnknownMethod fault — for EVERY table and argument
combination, i.e. before any selection, fitting or transforming, with no
fallback. -/
theorem normalize_method_case_insensitive_unknown
    (nk : NumKernel) (T : DataFrame) (f m : ColSpec) (s : Samples)
    (method1 method2 o : String) (sc : Bool) (sm : String)
    (h12 : lowerStr method1 = lowerStr method2) :
    normalize nk T f m s method1 o sc sm = normalize nk T f m s method2 o sc sm
    ∧ (lowerStr method1 ∉ avail_methods →
        normalize nk T f m s method1 o sc sm = .error .unknownMethod) := by
  constructor
  · simp only [normalize, normalizeCore, h12]
  · intro hna
    simp only [normalize, normalizeCore, if_neg hna]
    rfl

/-- Claim C6: for every available method (hence every scaling-model
variant), a selection spec that selects an empty row subset makes
`normalize` fail with the InvalidInput fault instead of fitting a model on
zero rows. -/
theorem normalize_empty_fit_subset_fault
    (nk : NumKernel) (T : DataFrame) (fcs mcs : List String) (samples : Samples)
    (method o : String) (sc : Bool) (sm : String)
    (hm : lowerStr method ∈ avail_methods)
    (hf : ∀ c ∈ fcs, c ∈ T.cols) (hmc : ∀ c ∈ mcs, c ∈ T.cols)
    (hq : selOkB T samples = true)
    (hempty : selRowsList T samples = []) :
    normalize nk T (.list fcs) (.list mcs) samples method o sc sm
      = .error .invalidInput := by
  have h1 : resolveSel T (.list fcs) false = .ok (.cols fcs) := resolveSel_list hf
  have h2 : resolveSel T (.list mcs) true = .ok (.cols mcs) := resolveSel_list hmc
  have h3 : selectRows T samples = .ok [] := by rw [selectRows_ok hq, hempty]
  have h5 : fitScaler nk (lowerStr method) sc sm fcs.length [] = .error .invalidInput := rfl
  simp only [normalize, normalizeCore, hm, if_true, h1, h2, h3, List.map_nil, rowsNums, h5]
  rfl

/-- Claim C7 (amended): `meta_features = "none"` is NOT treated as an
empty metadata set. The string is used as a column label: since the
resolution of `meta_features` only special-cases "infer", any other string
goes to `profiles.loc[:, s]`, which raises a KeyError when no column of
that name exists — the call fails rather than succeeding with a
metadata-free output. (See the counterexample for the original claim.) -/
theorem normalize_meta_scalar_label_fault
    (nk : NumKernel) (T : DataFrame) (f : ColSpec) (samples : Samples)
    (method o : String) (sc : Bool) (sm : String) (s : String)
    (hm : lowerStr method ∈ avail_methods)
    (hfr : isOkSel (resolveSel T f false) = true)
    (h1 : s ≠ "infer") (h2 : s ∉ T.cols) :
    normalize nk T f (.str s) samples method o sc sm = .error .keyError := by
  have hres : resolveSel T (.str s) true = .error .keyError := by
    simp only [resolveSel, if_neg h1]
    rw [if_neg]
    simp [h2]
  cases hok : resolveSel T f false with
  | error e =>
    rw [hok] at hfr
    simp [isOkSel] at hfr
  | ok fsel =>
    simp only [normalize, normalizeCore, hm, if_true, hok, hres]
    rfl

/-- Claim C8 (amended): `normalize` returns the normalized table exactly
when no output destination is specified (`output_file = "none"`); when a
destination is specified the table is handed to the output collaborator
and the function returns None instead of the table. Formally, a call with
any `output_file` equals the `"none"` call with its returned table dropped
whenever `output_file` differs from `"none"`. -/
theorem normalize_return_iff_no_output_file
    (nk : NumKernel) (T : DataFrame) (f m : ColSpec) (s : Samples)
    (method o : String) (sc : Bool) (sm : String) :
    normalize nk T f m s method o sc sm
      = (normalize nk T f m s method "none" sc sm).map
          (fun d => if o = "none" then d else none) := by
  cases h : normalizeCore nk T f m s method sc sm <;>
    simp only [normalize, h, Except.map, if_true]

/-- Claim C9: for `method = "mad_robustize"` (RobustMAD, modelled from the
spec), a feature column that is constant on the fitting subset gets the
fitted denominator `epsQ` — the epsilon floor, not zero — and every fitted
denominator is strictly positive, so the transform `(x - median) / den`
of every row of the table divides by a nonzero number and yields a finite
value (in this exact-arithmetic model, division by zero is the only
non-finite outcome). -/
theorem normalize_mad_constant_column_finite
    (nk : NumKernel) (T : DataFrame) (fcs mcs : List String) (samples : Samples)
    (sc : Bool) (sm : String) (j : Nat) (v : ℚ)
    (hlen : T.index.length = T.rows.length) (hnd : T.index.Nodup)
    (hf : ∀ c ∈ fcs, c ∈ T.cols) (hf0 : fcs ≠ [])
    (hmc : ∀ c ∈ mcs, c ∈ T.cols)
    (hq : selOkB T samples = true)
    (hsub : selRowsList T samples ≠ [])
    (hnum : NumericOn T fcs)
    (hj : j < fcs.length)
    (hconst : ∀ r ∈ selRowsList T samples, (numProj T.cols fcs r).getD j 0 = v) :
    ∃ df,
      normalize nk T (.list fcs) (.list mcs) samples "mad_robustize" "none" sc sm =
        .ok (some df) ∧
      df.featRows = (T.rows.map (numProj T.cols fcs)).map
        (tRow (.madp (madMeds fcs.length (fitInput T fcs samples))
                     (madDens fcs.length (fitInput T fcs samples)))) ∧
      (madDens fcs.length (fitInput T fcs samples)).getD j 0 = epsQ ∧
      ∀ d ∈ madDens fcs.length (fitInput T fcs samples), 0 < d := by
  have hm : lowerStr "mad_robustize" ∈ avail_methods := by decide
  obtain ⟨p, hp, hw, hcore⟩ :=
    run_ok nk T fcs mcs samples "mad_robustize" sc sm hm hlen hnd hf hf0 hmc hq hsub hnum
  have hXne : fitInput T fcs samples ≠ [] := fun hcon => hsub (List.map_eq_nil.mp hcon)
  have hlow : lowerStr "mad_robustize" = "mad_robustize" := by decide
  have hfit : fitScaler nk (lowerStr "mad_robustize") sc sm fcs.length
      (fitInput T fcs samples)
      = .ok (.madp (madMeds fcs.length (fitInput T fcs samples))
                   (madDens fcs.length (fitInput T fcs samples))) := by
    rw [hlow]
    exact fitScaler_mad nk sc sm _ hXne
  have hpe : p = .madp (madMeds fcs.length (fitInput T fcs samples))
      (madDens fcs.length (fitInput T fcs samples)) :=
    Except.ok.inj (hp.symm.trans hfit)
  subst hpe
  have hcol : ∀ x ∈ colQ (fitInput T fcs samples) j, x = v := by
    intro x hx
    rw [colQ] at hx
    obtain ⟨r, hr, rfl⟩ := List.mem_map.mp hx
    obtain ⟨r0, hr0, rfl⟩ := List.mem_map.mp hr
    exact hconst r0 hr0
  have hcne : colQ (fitInput T fcs samples) j ≠ [] := by
    rw [colQ]
    simpa using hXne
  have hgetd : (madDens fcs.length (fitInput T fcs samples)).getD j 0 = epsQ := by
    rw [madDens_getD _ hj, madDen_const hcne hcol]
  have hpos : ∀ d ∈ madDens fcs.length (fitInput T fcs samples), 0 < d := by
    intro d hd
    rw [madDens] at hd
    obtain ⟨j0, hj0, rfl⟩ := List.mem_map.mp hd
    exact madDen_pos _
  exact ⟨_, normalize_of_core_ok hcore, rfl, hgetd, hpos⟩

/-- Claim C10: for a `samples` spec other than "all", the fitting subset
is computed by evaluating the predicate against the FULL table — `evalQ`
runs in the context of all of `T.cols`, and the fit input equals the
feature projection of all the rows of `T` on which the predicate holds.
In particular a predicate referencing only feature columns (hypothesis
`href`) does not fail: the call succeeds and selects rows by those
feature values. -/
theorem normalize_query_uses_full_table
    (nk : NumKernel) (T : DataFrame) (fcs mcs : List String) (q : QExpr)
    (method : String) (sc : Bool) (sm : String)
    (hm : lowerStr method ∈ avail_methods)
    (hlen : T.index.length = T.rows.length) (hnd : T.index.Nodup)
    (hf : ∀ c ∈ fcs, c ∈ T.cols) (hf0 : fcs ≠ [])
    (hmc : ∀ c ∈ mcs, c ∈ T.cols)
    (href : ∀ c ∈ qCols q, c ∈ fcs)
    (hq : ∀ r ∈ T.rows, (evalQ T.cols r q).isSome = true)
    (hsub : selRowsList T (.query q) ≠ [])
    (hnum : NumericOn T fcs) :
    ∃ p df,
      fitScaler nk (lowerStr method) sc sm fcs.length (fitInput T fcs (.query q)) = .ok p ∧
      normalize nk T (.list fcs) (.list mcs) (.query q) method "none" sc sm = .ok (some df) ∧
      fitInput T fcs (.query q) =
        (T.rows.filter (fun r => decide (evalQ T.cols r q = some true))).map
          (numProj T.cols fcs) := by
  have hqok : selOkB T (.query q) = true := by
    show queryOkB T q = true
    rw [queryOkB, List.all_eq_true]
    exact hq
  obtain ⟨p, hp, hw, hcore⟩ :=
    run_ok nk T fcs mcs (.query q) method sc sm hm hlen hnd hf hf0 hmc hqok hsub hnum
  exact ⟨p, _, hp, normalize_of_core_ok hcore, rfl⟩

/- ## Counterexamples and witnesses -/

/-- Claim C2 counterexample: on a table whose index carries a duplicated
label, the index-based inner merge duplicates rows. Here two input rows
come back as four output rows, so the output does not have the same row
count and identifiers as the input. -/
theorem normalize_dup_index_row_count :
    rowCountOf (normalize kDflt Tdup (.list ["x"]) (.list []) .all
        "mad_robustize" "none" true "ZCA-cor") = some 4
    ∧ Tdup.index.length = 2 := by
  constructor
  · decide
  · rfl

/-- Claim C3 counterexample: on a table with a duplicated index label the
metadata column of the output is not identical to the input's — each value
is duplicated by the merge. -/
theorem normalize_dup_index_meta_column :
    metaColOf (normalize kDflt Tdup3 (.list ["x"]) (.list ["m"]) .all
        "mad_robustize" "none" true "ZCA-cor") "m"
      = some [.str "a", .str "a", .str "b", .str "b"]
    ∧ Tdup3.colVals "m" = [.str "a", .str "b"] := by
  constructor
  · decide
  · decide

/-- Claim C7 counterexample: with `meta_features = "none"` on a table that
has no column named "none", the call does not succeed with a
metadata-free output — it fails with a KeyError fault, because "none" is
used as a column label. -/
theorem normalize_meta_none_keyerror :
    normalize kDflt Tw (.list ["x"]) (.str "none") .all
        "standardize" "none" true "ZCA-cor" = .error .keyError
    ∧ "none" ∉ Tw.cols := by
  constructor
  · rfl
  · decide

/-- Claim C8 counterexample: when an output destination is specified the
call returns None (`.ok none`), not the normalized table — while the same
call with no destination does return a table (four rows here). -/
theorem normalize_output_file_returns_nothing :
    normalize kDflt Tw (.list ["x", "y", "z"]) (.list ["Metadata_treatment"]) .all
        "mad_robustize" "out.csv" true "ZCA-cor" = .ok none
    ∧ rowCountOf (normalize kDflt Tw (.list ["x", "y", "z"])
        (.list ["Metadata_treatment"]) .all
        "mad_robustize" "none" true "ZCA-cor") = some 4 := by
  constructor
  · rfl
  · decide

/-- Witness for C1: concrete control-row query on `Tw`. -/
theorem normalize_fits_on_subset_transforms_all_witness :
    (lowerStr "mad_robustize" ∈ avail_methods
      ∧ Tw.index.length = Tw.rows.length
      ∧ Tw.index.Nodup
      ∧ (∀ c ∈ (["x", "y"] : List String), c ∈ Tw.cols)
      ∧ (["x", "y"] : List String) ≠ []
      ∧ (∀ c ∈ (["Metadata_treatment"] : List String), c ∈ Tw.cols)
      ∧ selOkB Tw (.query (.strCmp "Metadata_treatment" .eq "control")) = true
      ∧ selRowsList Tw (.query (.strCmp "Metadata_treatment" .eq "control")) ≠ []
      ∧ NumericOn Tw ["x", "y"])
    ∧ ∃ p,
        fitScaler kDflt (lowerStr "mad_robustize") true "ZCA-cor"
            (["x", "y"] : List String).length
            (fitInput Tw ["x", "y"] (.query (.strCmp "Metadata_treatment" .eq "control")))
          = .ok p ∧
        normalize kDflt Tw (.list ["x", "y"]) (.list ["Metadata_treatment"])
            (.query (.strCmp "Metadata_treatment" .eq "control"))
            "mad_robustize" "none" true "ZCA-cor" =
          .ok (some { metaCols := ["Metadata_treatment"], featCols := ["x", "y"],
                      index := Tw.index,
                      metaRows := Tw.rows.map (projRow Tw.cols ["Metadata_treatment"]),
                      featRows := (Tw.rows.map (numProj Tw.cols ["x", "y"])).map (tRow p) }) :=
  ⟨by decide,
   normalize_fits_on_subset_transforms_all kDflt Tw ["x", "y"] ["Metadata_treatment"]
     (.query (.strCmp "Metadata_treatment" .eq "control")) "mad_robustize" true "ZCA-cor"
     (by decide) (by decide) (by decide) (by decide) (by decide) (by decide)
     (by decide) (by decide) (by decide)⟩

/-- Witness for C2 (amended): concrete run on `Tw`. -/
theorem normalize_preserves_rows_of_nodup_index_witness :
    (lowerStr "robustize" ∈ avail_methods
      ∧ Tw.index.length = Tw.rows.length
      ∧ Tw.index.Nodup
      ∧ (∀ c ∈ (["x", "y"] : List String), c ∈ Tw.cols)
      ∧ (["x", "y"] : List String) ≠ []
      ∧ (∀ c ∈ (["Metadata_treatment"] : List String), c ∈ Tw.cols)
      ∧ selOkB Tw .all = true
      ∧ selRowsList Tw .all ≠ []
      ∧ NumericOn Tw ["x", "y"])
    ∧ ∃ df,
        normalize kDflt Tw (.list ["x", "y"]) (.list ["Metadata_treatment"]) .all
            "robustize" "none" true "ZCA-cor" = .ok (some df) ∧
        df.index = Tw.index ∧ df.featRows.length = Tw.rows.length :=
  ⟨by decide,
   normalize_preserves_rows_of_nodup_index kDflt Tw ["x", "y"] ["Metadata_treatment"]
     .all "robustize" true "ZCA-cor"
     (by decide) (by decide) (by decide) (by decide) (by decide) (by decide)
     (by decide) (by decide) (by decide)⟩

/-- Witness for C3 (amended): concrete run on `Tw`. -/
theorem normalize_meta_columns_unchanged_witness :
    (lowerStr "standardize" ∈ avail_methods
      ∧ Tw.index.length = Tw.rows.length
      ∧ Tw.index.Nodup
      ∧ (∀ c ∈ (["x", "y"] : List String), c ∈ Tw.cols)
      ∧ (["x", "y"] : List String) ≠ []
      ∧ (∀ c ∈ (["Metadata_treatment"] : List String), c ∈ Tw.cols)
      ∧ selOkB Tw .all = true
      ∧ selRowsList Tw .all ≠ []
      ∧ NumericOn Tw ["x", "y"])
    ∧ ∃ df,
        normalize kDflt Tw (.list ["x", "y"]) (.list ["Metadata_treatment"]) .all
            "standardize" "none" true "ZCA-cor" = .ok (some df) ∧
        ∀ c ∈ (["Metadata_treatment"] : List String),
          df.metaColVals c = Tw.colVals c :=
  ⟨by decide,
   normalize_meta_columns_unchanged kDflt Tw ["x", "y"] ["Metadata_treatment"]
     .all "standardize" true "ZCA-cor"
     (by decide) (by decide) (by decide) (by decide) (by decide) (by decide)
     (by decide) (by decide) (by decide)⟩

/-- Witness for C4: an always-true predicate on `Tw`. -/
theorem normalize_all_eq_always_true_query_witness :
    (∀ r ∈ Tw.rows,
        evalQ Tw.cols r (.strCmp "Metadata_treatment" .ne "nothing") = some true)
    ∧ (selectRows Tw (.query (.strCmp "Metadata_treatment" .ne "nothing"))
          = selectRows Tw .all
       ∧ normalize kDflt Tw (.list ["x"]) (.list ["Metadata_treatment"])
           (.query (.strCmp "Metadata_treatment" .ne "nothing"))
           "standardize" "none" true "ZCA-cor"
         = normalize kDflt Tw (.list ["x"]) (.list ["Metadata_treatment"]) .all
             "standardize" "none" true "ZCA-cor") :=
  ⟨by decide,
   normalize_all_eq_always_true_query kDflt Tw (.list ["x"]) (.list ["Metadata_treatment"])
     (.strCmp "Metadata_treatment" .ne "nothing") "standardize" "none" true "ZCA-cor"
     (by decide)⟩

/-- Witness for C5: a capitalized unknown method. -/
theorem normalize_method_case_insensitive_unknown_witness :
    lowerStr "Quantize" = lowerStr "qUANTIZE"
    ∧ (normalize kDflt Tw (.list ["x"]) (.list []) .all "Quantize" "none" true "ZCA-cor"
        = normalize kDflt Tw (.list ["x"]) (.list []) .all "qUANTIZE" "none" true "ZCA-cor")
    ∧ normalize kDflt Tw (.list ["x"]) (.list []) .all "Quantize" "none" true "ZCA-cor"
        = .error .unknownMethod :=
  ⟨by decide,
   (normalize_method_case_insensitive_unknown kDflt Tw (.list ["x"]) (.list []) .all
      "Quantize" "qUANTIZE" "none" true "ZCA-cor" (by decide)).1,
   (normalize_method_case_insensitive_unknown kDflt Tw (.list ["x"]) (.list []) .all
      "Quantize" "qUANTIZE" "none" true "ZCA-cor" (by decide)).2 (by decide)⟩

/-- Witness for C6: a predicate matching no row, with the (spec-modelled)
spherize variant. -/
theorem normalize_empty_fit_subset_fault_witness :
    (lowerStr "spherize" ∈ avail_methods
      ∧ (∀ c ∈ (["x", "y"] : List String), c ∈ Tw.cols)
      ∧ (∀ c ∈ (["Metadata_treatment"] : List String), c ∈ Tw.cols)
      ∧ selOkB Tw (.query (.strCmp "Metadata_treatment" .eq "missing")) = true
      ∧ selRowsList Tw (.query (.strCmp "Metadata_treatment" .eq "missing")) = [])
    ∧ normalize kDflt Tw (.list ["x", "y"]) (.list ["Metadata_treatment"])
        (.query (.strCmp "Metadata_treatment" .eq "missing"))
        "spherize" "none" true "ZCA-cor"
      = .error .invalidInput :=
  ⟨by decide,
   normalize_empty_fit_subset_fault kDflt Tw ["x", "y"] ["Metadata_treatment"]
     (.query (.strCmp "Metadata_treatment" .eq "missing")) "spherize" "none" true "ZCA-cor"
     (by decide) (by decide) (by decide) (by decide) (by decide)⟩

/-- Witness for C7 (amended): the literal string "none" on `Tw`. -/
theorem normalize_meta_scalar_label_fault_witness :
    (lowerStr "robustize" ∈ avail_methods
      ∧ isOkSel (resolveSel Tw (.list ["x"]) false) = true
      ∧ "none" ≠ "infer"
      ∧ "none" ∉ Tw.cols)
    ∧ normalize kDflt Tw (.list ["x"]) (.str "none") .all
        "robustize" "none" true "ZCA-cor" = .error .keyError :=
  ⟨by decide,
   normalize_meta_scalar_label_fault kDflt Tw (.list ["x"]) .all
     "robustize" "none" true "ZCA-cor" "none"
     (by decide) (by decide) (by decide) (by decide)⟩

/-- Witness for C9: the `z` column of `Tw` is constant (value 5) on the
control rows. -/
theorem normalize_mad_constant_column_finite_witness :
    (Tw.index.length = Tw.rows.length
      ∧ Tw.index.Nodup
      ∧ (∀ c ∈ (["x", "z"] : List String), c ∈ Tw.cols)
      ∧ (["x", "z"] : List String) ≠ []
      ∧ (∀ c ∈ (["Metadata_treatment"] : List String), c ∈ Tw.cols)
      ∧ selOkB Tw (.query (.strCmp "Metadata_treatment" .eq "control")) = true
      ∧ selRowsList Tw (.query (.strCmp "Metadata_treatment" .eq "control")) ≠ []
      ∧ NumericOn Tw ["x", "z"]
      ∧ 1 < (["x", "z"] : List String).length
      ∧ (∀ r ∈ selRowsList Tw (.query (.strCmp "Metadata_treatment" .eq "control")),
          (numProj Tw.cols ["x", "z"] r).getD 1 0 = 5))
    ∧ ∃ df,
        normalize kDflt Tw (.list ["x", "z"]) (.list ["Metadata_treatment"])
            (.query (.strCmp "Metadata_treatment" .eq "control"))
            "mad_robustize" "none" true "ZCA-cor" = .ok (some df) ∧
        df.featRows = (Tw.rows.map (numProj Tw.cols ["x", "z"])).map
          (tRow (.madp
            (madMeds (["x", "z"] : List String).length
              (fitInput Tw ["x", "z"] (.query (.strCmp "Metadata_treatment" .eq "control"))))
            (madDens (["x", "z"] : List String).length
              (fitInput Tw ["x", "z"]
                (.query (.strCmp "Metadata_treatment" .eq "control")))))) ∧
        (madDens (["x", "z"] : List String).length
            (fitInput Tw ["x", "z"]
              (.query (.strCmp "Metadata_treatment" .eq "control")))).getD 1 0 = epsQ ∧
        ∀ d ∈ madDens (["x", "z"] : List String).length
            (fitInput Tw ["x", "z"]
              (.query (.strCmp "Metadata_treatment" .eq "control"))), 0 < d :=
  ⟨by decide,
   normalize_mad_constant_column_finite kDflt Tw ["x", "z"] ["Metadata_treatment"]
     (.query (.strCmp "Metadata_treatment" .eq "control")) true "ZCA-cor" 1 5
     (by decide) (by decide) (by decide) (by decide) (by decide) (by decide)
     (by decide) (by decide) (by decide) (by decide)⟩

/-- Witness for C10: a predicate on the feature column `x`. -/
theorem normalize_query_uses_full_table_witness :
    (lowerStr "standardize" ∈ avail_methods
      ∧ Tw.index.length = Tw.rows.length
      ∧ Tw.index.Nodup
      ∧ (∀ c ∈ (["x", "y"] : List String), c ∈ Tw.cols)
      ∧ (["x", "y"] : List String) ≠ []
      ∧ (∀ c ∈ (["Metadata_treatment"] : List String), c ∈ Tw.cols)
      ∧ (∀ c ∈ qCols (.numCmp "x" .le 2), c ∈ (["x", "y"] : List String))
      ∧ (∀ r ∈ Tw.rows, (evalQ Tw.cols r (.numCmp "x" .le 2)).isSome = true)
      ∧ selRowsList Tw (.query (.numCmp "x" .le 2)) ≠ []
      ∧ NumericOn Tw ["x", "y"])
    ∧ ∃ p df,
        fitScaler kDflt (lowerStr "standardize") true "ZCA-cor"
            (["x", "y"] : List String).length
            (fitInput Tw ["x", "y"] (.query (.numCmp "x" .le 2))) = .ok p ∧
        normalize kDflt Tw (.list ["x", "y"]) (.list ["Metadata_treatment"])
            (.query (.numCmp "x" .le 2)) "standardize" "none" true "ZCA-cor"
          = .ok (some df) ∧
        fitInput Tw ["x", "y"] (.query (.numCmp "x" .le 2)) =
          (Tw.rows.filter
              (fun r => decide (evalQ Tw.cols r (.numCmp "x" .le 2) = some true))).map
            (numProj Tw.cols ["x", "y"]) :=
  ⟨by decide,
   normalize_query_uses_full_table kDflt Tw ["x", "y"] ["Metadata_treatment"]
     (.numCmp "x" .le 2) "standardize" true "ZCA-cor"
     (by decide) (by decide) (by decide) (by decide) (by decide) (by decide)
     (by decide) (by decide) (by decide) (by decide)⟩

end PycytoNorm
